import Mathlib

/-!
Verification development for the Provis repository: a Next.js dashboard for
uploading repositories and inspecting derived "capabilities", backed by a
queue/worker pipeline that is documented operationally (backend/RUNBOOK.md)
and consumed by the front end through an HTTP API.

The front-end upload/polling handlers, the repository-overview mockup tree
search and the swimlane flow renderer are embedded directly from the
TypeScript source.  The backend pipeline (snapshot store, artifact store,
zip-bomb guards, job phase machine) is not part of the supplied source, so
those definitions are modelled from the specification text, as marked on
each definition.
-/

/-! ## Job phases and status payloads

The phase enum and the `GET /status/{job_id}` payload shape come from the
spec (spec.md section 3 and section 6); the API client module that declares
`StatusPayload` is not among the supplied sources.
-/

/-- Modelled from the spec: the Job `phase` enum
(queued, acquiring, discovering, parsing, mapping, summarizing, done, failed). -/
inductive Phase where
  | queued
  | acquiring
  | discovering
  | parsing
  | mapping
  | summarizing
  | done
  | failed
deriving DecidableEq, Repr

/-- The wire string for each phase value, as used by the front end's
`status.phase` comparisons. -/
def Phase.toWire : Phase → String
  | .queued => "queued"
  | .acquiring => "acquiring"
  | .discovering => "discovering"
  | .parsing => "parsing"
  | .mapping => "mapping"
  | .summarizing => "summarizing"
  | .done => "done"
  | .failed => "failed"

/-- The list of all eight phase values. -/
def allPhases : List Phase :=
  [.queued, .acquiring, .discovering, .parsing, .mapping, .summarizing, .done, .failed]

/-- Modelled from the spec: the `GET /status/{job_id}` response shape
`{ phase, pct, error?, repoId }` declared by the front end's API client
(`StatusPayload`), which is not among the supplied sources. -/
structure StatusPayload where
  phase : Phase
  pct : Nat
  error : Option String
  repoId : String
deriving DecidableEq, Repr

/-- A phase is terminal when it is `done` or `failed` (spec.md section 4.1). -/
def terminalPhase (p : Phase) : Bool :=
  p = Phase.done || p = Phase.failed

/-! ## Front-end polling loops

Embedded from the source:
* `RepositoryUpload.tsx` `pollStatus` (and the identical interval bodies in
  the unnamed upload components): the interval is cleared when
  `status.phase === 'done'` and when `status.phase === 'failed'`;
* the unnamed upload page's `handleUpload` while-loop, which sets
  `done = true` only when `s.phase === "done"` and otherwise sleeps and
  polls again.
-/

/-- Embedded from `RepositoryUpload.tsx` `pollStatus` (same branch structure
in the unnamed part_003 and part_004 upload components): the tick handler
clears the polling interval exactly in the `done` and `failed` branches. -/
def pollStatusStops (s : StatusPayload) : Bool :=
  if s.phase = Phase.done then true
  else if s.phase = Phase.failed then true
  else false

/-- Embedded from the unnamed part_001 `handleUpload` while-loop: the loop
flag `done` is set only when `s.phase === "done"`; every other phase sleeps
and polls again. -/
def handleUploadStops (s : StatusPayload) : Bool :=
  if s.phase = Phase.done then true
  else false

/-- Running a polling loop over a sequence of status responses: the index of
the response at which the loop stops, or `none` when the loop keeps polling
past the whole sequence. -/
def pollRun (stops : StatusPayload → Bool) : List StatusPayload → Option Nat
  | [] => none
  | s :: rest =>
    if stops s then some 0
    else (pollRun stops rest).map (· + 1)

theorem pollRun_eq_findIdx? (stops : StatusPayload → Bool) :
    ∀ l : List StatusPayload, pollRun stops l = l.findIdx? stops := by
  intro l
  induction l with
  | nil => rfl
  | cons s rest ih =>
    by_cases h : stops s = true
    · simp [pollRun, List.findIdx?, h]
    · simp only [Bool.not_eq_true] at h
      simp [pollRun, List.findIdx?, h, ih, List.findIdx?_cons]

/-! ## The poll tick handler of `RepositoryUpload.tsx`

One tick of the `setInterval` callback in `pollStatus`, on a successfully
fetched status payload: it records `status.pct` as the progress, picks a
message from the phase-message table, and branches on `done` / `failed`.
-/

/-- Embedded from the front end's upload components: the component-level
upload status values `idle | uploading | processing | complete | error`. -/
inductive UploadStatus where
  | idle
  | uploading
  | processing
  | complete
  | error
deriving DecidableEq, Repr

/-- JavaScript `a || b` on an optional string: the default is used when the
value is `undefined` or the empty string (both falsy). -/
def jsOrString : Option String → String → String
  | some s, dflt => if s = "" then dflt else s
  | none, dflt => dflt

/-- Embedded from `RepositoryUpload.tsx` `pollStatus` (identical table in the
unnamed part_003 and part_004 upload components): the `phaseMessages` record
mapping phase strings to user-facing messages. -/
def phaseMessages : List (String × String) :=
  [("queued", "Repository queued for processing..."),
   ("acquiring", "Acquiring repository data..."),
   ("discovering", "Discovering files and structure..."),
   ("parsing", "Parsing code files..."),
   ("mapping", "Mapping dependencies..."),
   ("summarizing", "Generating summaries..."),
   ("done", "Processing complete!"),
   ("failed", "Processing failed")]

/-- `phaseMessages[phase]`: property lookup on the phase-message record. -/
def lookupMessage (phase : String) : Option String :=
  (phaseMessages.find? (fun e => e.1 == phase)).map Prod.snd

/-- `phaseMessages[status.phase] || 'Processing... (pct%)'` from the source. -/
def statusMessageFor (s : StatusPayload) : String :=
  jsOrString (lookupMessage s.phase.toWire)
    ("Processing... (" ++ toString s.pct ++ "%)")

/-- The component state written by one tick of `pollStatus`. -/
structure TickOutcome where
  stopPolling : Bool
  uploadStatus : UploadStatus
  uploadError : Option String
  progress : Nat
  statusMessage : String
  completedRepo : Option String
deriving DecidableEq, Repr

/-- Embedded from `RepositoryUpload.tsx` `pollStatus` (same body in the
unnamed part_003 and part_004 upload components): one interval tick on a
successfully fetched status.  `setProgress(status.pct)`; the message comes
from the table; on `done` the interval is cleared, the status becomes
`complete`, progress is forced to 100 and `onUploadComplete` is invoked with
`status.repoId`; on `failed` the interval is cleared, the error becomes
`status.error || 'Processing failed'` and the status becomes `error`;
otherwise polling continues. -/
def pollTick (s : StatusPayload) : TickOutcome :=
  let base : TickOutcome :=
    { stopPolling := false
      uploadStatus := UploadStatus.processing
      uploadError := none
      progress := s.pct
      statusMessage := statusMessageFor s
      completedRepo := none }
  if s.phase = Phase.done then
    { base with
        stopPolling := true
        uploadStatus := UploadStatus.complete
        progress := 100
        completedRepo := some s.repoId }
  else if s.phase = Phase.failed then
    { base with
        stopPolling := true
        uploadStatus := UploadStatus.error
        uploadError := some (jsOrString s.error "Processing failed") }
  else base

theorem pollStatusStops_eq_terminal (s : StatusPayload) :
    pollStatusStops s = terminalPhase s.phase := by
  cases h : s.phase <;> simp [pollStatusStops, terminalPhase, h]

/-- C3 counterexample: the part_001 `handleUpload` polling loop does not
terminate on a `failed` status response, even though `failed` is a terminal
phase — the claim that every front-end upload polling loop terminates
exactly on a terminal phase is false for this loop. -/
theorem c3_counterexample :
    handleUploadStops
        { phase := Phase.failed, pct := 50, error := some "boom", repoId := "r1" } = false
      ∧ terminalPhase Phase.failed = true := by
  constructor
  · rfl
  · rfl

/-- C3 (amended): the `setInterval`-based pollers (`RepositoryUpload.tsx`,
part_003, part_004) stop at exactly the first status response whose phase is
terminal (`done` or `failed`), and keep polling through every sequence of
non-terminal responses; the part_001 `handleUpload` while-loop instead stops
exactly on `done`, continuing to poll on `failed`. -/
theorem c3_polling_termination :
    (∀ l : List StatusPayload,
        pollRun pollStatusStops l = l.findIdx? (fun s => terminalPhase s.phase))
    ∧ (∀ l : List StatusPayload,
        pollRun pollStatusStops l = none ↔ ∀ s ∈ l, terminalPhase s.phase = false)
    ∧ (∀ s : StatusPayload, handleUploadStops s = true ↔ s.phase = Phase.done) := by
  have hfun : pollStatusStops = fun s => terminalPhase s.phase :=
    funext pollStatusStops_eq_terminal
  refine ⟨?_, ?_, ?_⟩
  · intro l
    rw [pollRun_eq_findIdx?, hfun]
  · intro l
    rw [pollRun_eq_findIdx?, hfun, List.findIdx?_eq_none_iff]
  · intro s
    cases h : s.phase <;> simp [handleUploadStops, h]

/-- C3 witness: a concrete run — on a sequence of non-terminal responses the
`RepositoryUpload.tsx` poller keeps polling (stop index `none`). -/
theorem c3_polling_termination_witness :
    pollRun pollStatusStops
      [{ phase := Phase.queued, pct := 0, error := none, repoId := "r" },
       { phase := Phase.parsing, pct := 40, error := none, repoId := "r" }] = none :=
  (c3_polling_termination.2.1 _).mpr (by decide)

/-- C4: whenever a status response reports phase `failed`, the
`RepositoryUpload.tsx` tick handler stops polling, surfaces the stored error
string (falling back to "Processing failed" when the error field is absent),
marks the component errored, and never invokes the completion callback; the
completion callback and the `complete` status arise only from phase `done`. -/
theorem c4_failed_surfaces_error :
    (∀ s : StatusPayload, s.phase = Phase.failed →
        (pollTick s).stopPolling = true
        ∧ (pollTick s).uploadStatus = UploadStatus.error
        ∧ (pollTick s).uploadError = some (jsOrString s.error "Processing failed")
        ∧ (s.error = none → (pollTick s).uploadError = some "Processing failed")
        ∧ (pollTick s).completedRepo = none)
    ∧ (∀ s : StatusPayload,
        (pollTick s).uploadStatus = UploadStatus.complete ∨ (pollTick s).completedRepo ≠ none →
          s.phase = Phase.done) := by
  constructor
  · intro s h
    refine ⟨?_, ?_, ?_, ?_, ?_⟩ <;>
      simp [pollTick, h, jsOrString]
    intro he
    simp [he, jsOrString]
  · intro s h
    cases hp : s.phase <;> simp [pollTick, hp] at h ⊢

/-- C4 witness: a concrete `failed` status with no stored error — the
handler stops, falls back to the fixed message, and exposes no result. -/
theorem c4_failed_surfaces_error_witness :
    (pollTick { phase := Phase.failed, pct := 80, error := none, repoId := "r9" }).uploadError
        = some "Processing failed"
      ∧ (pollTick { phase := Phase.failed, pct := 80, error := none, repoId := "r9" }).completedRepo
        = none :=
  ⟨(c4_failed_surfaces_error.1 _ rfl).2.2.2.1 rfl,
   (c4_failed_surfaces_error.1 _ rfl).2.2.2.2⟩

/-! ## File-type validation in `handleFileUpload`

Embedded from `RepositoryUpload.tsx` `handleFileUpload` (identical guard in
the unnamed part_003 and part_004 components): if no file is selected the
handler returns immediately; if the selected file's name does not end in
`.zip` it sets a validation error and returns before
`apiClient.ingestRepository` is ever called; otherwise it issues the ingest
request.
-/

/-- The externally visible action taken by `handleFileUpload`. -/
inductive UploadAction where
  | noFile
  | rejectedNonZip (message : String)
  | ingestIssued (fileName : String)
deriving DecidableEq, Repr

/-- JavaScript `String.prototype.endsWith`: the characters of `suffix` are a
suffix of the characters of `s`. -/
def jsEndsWith (s suffix : String) : Bool :=
  suffix.data.isSuffixOf s.data

/-- Embedded from `RepositoryUpload.tsx` `handleFileUpload`: the file-type
guard (`!file.name.endsWith('.zip')`) and whether the ingest request is
issued. -/
def handleFileUpload (selected : Option String) : UploadAction :=
  match selected with
  | none => UploadAction.noFile
  | some name =>
    if !(jsEndsWith name ".zip") then
      UploadAction.rejectedNonZip "Please upload a ZIP file containing your repository"
    else
      UploadAction.ingestIssued name

/-- Whether an upload action reached `apiClient.ingestRepository`. -/
def ingestRequested : UploadAction → Bool
  | UploadAction.ingestIssued _ => true
  | _ => false

/-- C5: for every selected file whose name does not end in `.zip`, the
upload handler reports the fixed validation error and never issues the
ingest request, so no job is created for it. -/
theorem c5_non_zip_rejected (name : String) (h : jsEndsWith name ".zip" = false) :
    handleFileUpload (some name)
        = UploadAction.rejectedNonZip "Please upload a ZIP file containing your repository"
      ∧ ingestRequested (handleFileUpload (some name)) = false := by
  constructor
  · simp [handleFileUpload, h]
  · simp [handleFileUpload, h, ingestRequested]

/-- C5 witness: a concrete non-zip selection is rejected and not ingested. -/
theorem c5_non_zip_rejected_witness :
    handleFileUpload (some "repo.tar.gz")
        = UploadAction.rejectedNonZip "Please upload a ZIP file containing your repository"
      ∧ ingestRequested (handleFileUpload (some "repo.tar.gz")) = false :=
  c5_non_zip_rejected "repo.tar.gz" (by decide)

/-- C7: every status payload has the `{ phase, pct, error?, repoId }` shape
with `phase` drawn from the eight-value enum (`StatusPayload` / `allPhases`),
and the front end's phase-message table handles exactly this enum: every
phase value looks up a defined message, and the table's keys are exactly the
wire strings of the enum. -/
theorem c7_phase_messages_total :
    (∀ p : Phase, p ∈ allPhases)
    ∧ (∀ s : StatusPayload, (lookupMessage s.phase.toWire).isSome = true)
    ∧ phaseMessages.map Prod.fst = allPhases.map Phase.toWire := by
  refine ⟨?_, ?_, rfl⟩
  · intro p
    cases p <;> simp [allPhases]
  · intro s
    cases h : s.phase <;> rfl

/-! ## Repository-overview mockup: tree search (part_002)

Embedded from the unnamed part_002 `RepoOverviewMockup`: the repo structure
is a tree of `FolderNode`/`FileNode` values (`isFolder` tests for a
`children` field); `handleFileSelect` runs a recursive `findFile` traversal
over the mock `REPO` tree and refocuses only when a file node is found.
-/

/-- Embedded from part_002: `FileNode`
(`id`/`label`/`purpose`/`lines`) and `FolderNode`
(`id`/`label`/`purpose`/`children`); `isFolder` distinguishes them by the
presence of `children`. -/
inductive RepoNode where
  | file (id label purpose : String) (lines : Nat)
  | folder (id label purpose : String) (children : List RepoNode)
deriving Repr

/-- The `id` field of a node. -/
def RepoNode.nodeId : RepoNode → String
  | .file i _ _ _ => i
  | .folder i _ _ _ => i

/-- Whether a node is a `FileNode` (as opposed to a `FolderNode`). -/
def RepoNode.isFile : RepoNode → Bool
  | .file _ _ _ _ => true
  | .folder _ _ _ _ => false

mutual
/-- Embedded from part_002 `handleFileSelect.findFile`: on a file node,
return it when its `id` equals `fileId`, else `null`; on a folder node,
recurse over the children in order and return the first hit. -/
def findFile (fileId : String) : RepoNode → Option RepoNode
  | .file i l p n => if i = fileId then some (.file i l p n) else none
  | .folder _ _ _ cs => findFileList fileId cs

/-- The `for (const child of node.children)` loop of `findFile`: the first
non-null recursive result, else `null`. -/
def findFileList (fileId : String) : List RepoNode → Option RepoNode
  | [] => none
  | c :: cs =>
    match findFile fileId c with
    | some r => some r
    | none => findFileList fileId cs
end

mutual
/-- The file nodes of a tree in depth-first pre-order (the order in which
`findFile` visits them). -/
def preorderFiles : RepoNode → List RepoNode
  | .file i l p n => [.file i l p n]
  | .folder _ _ _ cs => preorderFilesList cs

/-- `preorderFiles` over a forest, left to right. -/
def preorderFilesList : List RepoNode → List RepoNode
  | [] => []
  | c :: cs => preorderFiles c ++ preorderFilesList cs
end

/-- Embedded from part_002: the mock `REPO` tree of the repository-overview
mockup. -/
def REPO : RepoNode :=
  .folder "root" "/" "Root of repository"
    [.folder "app" "app" "UI routes (Next.js)"
      [.file "app/page.tsx" "page.tsx" "Landing page UI" 120,
       .file "app/dashboard.tsx" "dashboard.tsx" "Main dashboard UI" 220],
     .folder "pages" "pages" "API routes"
      [.file "pages/api/appointments.ts" "appointments.ts" "CRUD endpoints" 300,
       .file "pages/api/payments.ts" "payments.ts" "Stripe webhooks" 180],
     .folder "core" "core" "Business logic"
      [.file "core/scheduling.ts" "scheduling.ts" "Availability engine" 400,
       .file "core/billing.ts" "billing.ts" "Payment orchestration" 500],
     .folder "db" "db" "Database schema"
      [.file "db/schema.prisma" "schema.prisma" "ORM schema" 220],
     .folder "lib" "lib" "Utility functions"
      [.file "lib/helpers.ts" "helpers.ts" "General helpers" 150]]

/-- Embedded from part_002 `handleFileSelect`: run `findFile` on `REPO`; on
a hit, focus the found file; otherwise leave the focus unchanged. -/
def handleFileSelect (fileId : String) (focus : RepoNode) : RepoNode :=
  match findFile fileId REPO with
  | some f => f
  | none => focus

mutual
theorem findFile_eq_find? (fileId : String) (t : RepoNode) :
    findFile fileId t = (preorderFiles t).find? (fun n => n.nodeId == fileId) := by
  cases t with
  | file i l p n =>
    simp only [findFile, preorderFiles, List.find?, RepoNode.nodeId]
    by_cases h : i = fileId
    · simp [h]
    · have hb : (i == fileId) = false := beq_eq_false_iff_ne.mpr h
      simp [h, hb]
  | folder i l p cs =>
    rw [findFile, preorderFiles, findFileList_eq_find?]

theorem findFileList_eq_find? (fileId : String) (l : List RepoNode) :
    findFileList fileId l = (preorderFilesList l).find? (fun n => n.nodeId == fileId) := by
  cases l with
  | nil => rfl
  | cons c cs =>
    rw [findFileList, preorderFilesList, List.find?_append,
      findFile_eq_find? fileId c, findFileList_eq_find? fileId cs]
    cases (preorderFiles c).find? (fun n => n.nodeId == fileId) <;> simp
end

mutual
theorem preorderFiles_isFile (t : RepoNode) :
    ∀ n ∈ preorderFiles t, n.isFile = true := by
  cases t with
  | file i l p n =>
    intro m hm
    simp only [preorderFiles, List.mem_singleton] at hm
    subst hm
    rfl
  | folder i l p cs =>
    rw [preorderFiles]
    exact preorderFilesList_isFile cs

theorem preorderFilesList_isFile (l : List RepoNode) :
    ∀ n ∈ preorderFilesList l, n.isFile = true := by
  cases l with
  | nil => intro n hn; simp [preorderFilesList] at hn
  | cons c cs =>
    intro n hn
    rw [preorderFilesList] at hn
    rcases List.mem_append.mp hn with h | h
    · exact preorderFiles_isFile c n h
    · exact preorderFilesList_isFile cs n h
end

/-- C9: in the repository-overview mockup, `findFile` returns the first
file node in depth-first pre-order whose `id` equals `fileId` (and only
file nodes, never folders); it returns `null` exactly when no file node
with that id exists; and selecting a capability step changes the focused
node only when such a file exists in the `REPO` tree. -/
theorem c9_findFile_first_preorder :
    (∀ fileId : String, ∀ t : RepoNode,
        findFile fileId t = (preorderFiles t).find? (fun n => n.nodeId == fileId))
    ∧ (∀ t : RepoNode, ∀ n ∈ preorderFiles t, n.isFile = true)
    ∧ (∀ fileId : String,
        findFile fileId REPO = none ↔ ∀ n ∈ preorderFiles REPO, ¬ n.nodeId = fileId)
    ∧ (∀ fileId : String, ∀ focus : RepoNode,
        handleFileSelect fileId focus ≠ focus → (findFile fileId REPO).isSome = true) := by
  refine ⟨findFile_eq_find?, preorderFiles_isFile, ?_, ?_⟩
  · intro fileId
    rw [findFile_eq_find? fileId REPO, List.find?_eq_none]
    constructor
    · intro h n hn
      have := h n hn
      simpa using this
    · intro h n hn
      simpa using h n hn
  · intro fileId focus h
    unfold handleFileSelect at h
    cases hf : findFile fileId REPO with
    | none => rw [hf] at h; exact absurd rfl h
    | some f => rfl

/-- C9 witness: the step file `app/page.tsx` exists in the tree, so
selecting it changes the focus away from a differently-named node. -/
theorem c9_findFile_first_preorder_witness :
    (findFile "app/page.tsx" REPO).isSome = true :=
  c9_findFile_first_preorder.2.2.2 "app/page.tsx" (RepoNode.folder "start" "s" "s" [])
    (fun h => absurd (congrArg RepoNode.nodeId h) (by decide))

/-! ## Swimlane flow renderer (part_010, named-export `SwimlaneFlow`)

Embedded from the unnamed part_010 `SwimlaneFlow` component: the node list
is `Array.from(new Set(edges.flatMap(e => [e.from, e.to])))`, and each node
is assigned a lane by
`Object.entries(swimlanes).find(([,list]) => list.includes(node))?.[0] || 'other'`,
with `swimlanes` declared as `{ web; api; workers }`.
-/

/-- Embedded from part_010: a control-flow edge.  The TypeScript fields are
`from`/`to`; they are renamed here because `from` is reserved in Lean. -/
structure ControlFlowEdge where
  fromNode : String
  toNode : String
deriving DecidableEq, Repr

/-- Embedded from part_010: the `swimlanes` prop `{ web; api; workers }`. -/
structure Swimlanes where
  web : List String
  api : List String
  workers : List String
deriving Repr

/-- `edges.flatMap(e => [e.from, e.to])`: the endpoints of the edges in
appearance order. -/
def edgeEndpoints (edges : List ControlFlowEdge) : List String :=
  edges.flatMap (fun e => [e.fromNode, e.toNode])

/-- `Array.from(new Set(...))` over the endpoints: a JS `Set` iterates in
insertion order, so this keeps the first appearance of each endpoint. -/
def nodesOf (edges : List ControlFlowEdge) : List String :=
  (edgeEndpoints edges).foldl (fun acc x => if x ∈ acc then acc else acc ++ [x]) []

/-- `Object.entries(swimlanes)` in the declaration order of the
`swimlanes` prop type: web, api, workers. -/
def swimlaneEntries (sw : Swimlanes) : List (String × List String) :=
  [("web", sw.web), ("api", sw.api), ("workers", sw.workers)]

/-- Embedded from part_010 `SwimlaneFlow.laneFor`:
`Object.entries(swimlanes).find(([,list]) => list.includes(node))?.[0] || 'other'`. -/
def laneFor (sw : Swimlanes) (node : String) : String :=
  jsOrString (((swimlaneEntries sw).find? (fun e => e.2.contains node)).map Prod.fst) "other"

/-- `const cols = nodes.map(n => ({ n, lane: laneFor(n) }))` from the
source: every rendered node paired with its lane. -/
def swimlaneCols (edges : List ControlFlowEdge) (sw : Swimlanes) : List (String × String) :=
  (nodesOf edges).map (fun n => (n, laneFor sw n))

/-- Deduplication keeping the first appearance of each element — the
claim's reading of JS `Set` insertion-iteration order. -/
def dedupKeepFirst : List String → List String
  | [] => []
  | x :: xs => x :: dedupKeepFirst (xs.filter (fun y => !(y == x)))
termination_by l => l.length
decreasing_by
  simp only [List.length_cons]
  exact Nat.lt_succ_of_le (List.length_filter_le _ _)

theorem dedupKeepFirst_nil : dedupKeepFirst [] = [] := by
  rw [dedupKeepFirst]

theorem dedupKeepFirst_cons (x : String) (xs : List String) :
    dedupKeepFirst (x :: xs) = x :: dedupKeepFirst (xs.filter (fun y => !(y == x))) := by
  rw [dedupKeepFirst]

theorem foldIns_eq (l : List String) : ∀ acc : List String,
    l.foldl (fun acc x => if x ∈ acc then acc else acc ++ [x]) acc
      = acc ++ dedupKeepFirst (l.filter (fun y => decide (y ∉ acc))) := by
  induction l with
  | nil => intro acc; simp [dedupKeepFirst_nil]
  | cons x xs ih =>
    intro acc
    by_cases hx : x ∈ acc
    · have hd : (decide (x ∉ acc)) = false := by simp [hx]
      simp only [List.foldl_cons, if_pos hx, List.filter_cons, hd, Bool.false_eq_true,
        if_false, ih acc]
    · have hd : (decide (x ∉ acc)) = true := by simp [hx]
      simp only [List.foldl_cons, if_neg hx, List.filter_cons, hd, if_true, ih (acc ++ [x]),
        dedupKeepFirst_cons]
      have hpt : ∀ y ∈ xs, (decide (y ∉ acc ++ [x]))
          = ((fun y => !(y == x)) y && (fun y => decide (y ∉ acc)) y) := by
        intro y _
        by_cases h1 : y ∈ acc <;> by_cases h2 : y = x <;>
          simp [h1, h2, List.mem_append]
      rw [List.filter_congr hpt, ← List.filter_filter]
      simp

theorem laneFor_spec (sw : Swimlanes) (n : String) :
    laneFor sw n = if n ∈ sw.web then "web" else if n ∈ sw.api then "api"
      else if n ∈ sw.workers then "workers" else "other" := by
  unfold laneFor swimlaneEntries
  by_cases h1 : n ∈ sw.web <;> by_cases h2 : n ∈ sw.api <;> by_cases h3 : n ∈ sw.workers <;>
    simp [List.find?, h1, h2, h3, jsOrString]

/-- C10: the rendered node list is the keep-first deduplication of the
edge endpoints in appearance order; lane assignment is total — each node
gets the first of web/api/workers whose list contains it, `other` when none
does — and the rendered column list pairs every node with exactly one lane,
so no node is dropped for lacking a lane. -/
theorem c10_swimlane_nodes_total_lanes :
    (∀ edges : List ControlFlowEdge, nodesOf edges = dedupKeepFirst (edgeEndpoints edges))
    ∧ (∀ (sw : Swimlanes) (n : String),
        laneFor sw n = if n ∈ sw.web then "web" else if n ∈ sw.api then "api"
          else if n ∈ sw.workers then "workers" else "other")
    ∧ (∀ (edges : List ControlFlowEdge) (sw : Swimlanes),
        (swimlaneCols edges sw).length = (nodesOf edges).length)
    ∧ (∀ (edges : List ControlFlowEdge) (sw : Swimlanes),
        ∀ pr ∈ swimlaneCols edges sw, pr.2 ∈ ["web", "api", "workers", "other"]) := by
  refine ⟨?_, laneFor_spec, ?_, ?_⟩
  · intro edges
    rw [nodesOf, foldIns_eq]
    simp
  · intro edges sw
    simp [swimlaneCols]
  · intro edges sw pr hpr
    rcases List.mem_map.mp hpr with ⟨n, _, rfl⟩
    rw [laneFor_spec]
    by_cases h1 : n ∈ sw.web <;> by_cases h2 : n ∈ sw.api <;> by_cases h3 : n ∈ sw.workers <;>
      simp [h1, h2, h3]

/-- C10 witness: on a concrete edge list and lane assignment the rendered
columns give node "a" (which is in no lane list) a lane from the closed
lane set. -/
theorem c10_swimlane_nodes_total_lanes_witness :
    (("a", laneFor { web := ["b"], api := [], workers := [] } "a") : String × String).2
      ∈ (["web", "api", "workers", "other"] : List String) :=
  c10_swimlane_nodes_total_lanes.2.2.2
    [{ fromNode := "a", toNode := "b" }] { web := ["b"], api := [], workers := [] }
    ("a", laneFor { web := ["b"], api := [], workers := [] } "a") (by decide)

/-! ## Snapshot store and job submission (modelled from the spec)

The backend pipeline of backend/RUNBOOK.md is not among the supplied
sources; the snapshot store, submit path and zip-bomb guard below are
modelled from the specification text (spec.md sections 3, 4.1, 5, 7 and the
runbook's environment defaults).
-/

/-- Modelled from the spec: a Snapshot — an immutable, content-hashed
representation of an uploaded repository, keyed by content hash and reused
across jobs that upload identical content. -/
structure Snapshot where
  contentHash : String
  repoId : String
deriving DecidableEq, Repr

/-- Modelled from the spec: the store of snapshots shared for writes across
concurrent jobs. -/
structure SnapshotStore where
  snapshots : List Snapshot
deriving DecidableEq, Repr

/-- Lookup of a snapshot by content hash. -/
def findSnapshot (st : SnapshotStore) (h : String) : Option Snapshot :=
  st.snapshots.find? (fun s => s.contentHash == h)

/-- Modelled from the spec: Snapshot creation as create-if-absent — the
store returns the existing Snapshot on conflict rather than erroring,
preserving idempotency when two uploads of identical content race. -/
def createSnapshotIfAbsent (st : SnapshotStore) (h : String) (freshRepoId : String) :
    Snapshot × SnapshotStore :=
  match findSnapshot st h with
  | some s => (s, st)
  | none =>
    let s : Snapshot := { contentHash := h, repoId := freshRepoId }
    (s, { snapshots := st.snapshots ++ [s] })

/-- The result of `submitJob`: the repo id and the emitted job events. -/
structure SubmitResult where
  repoId : String
  events : List String
deriving DecidableEq, Repr

/-- Modelled from the spec: `submitJob(archive)` — computes the content
hash; if a Snapshot with that hash already exists it short-circuits
directly to a `cache_hit` event and reuses that snapshot's repo, otherwise
it creates the snapshot. -/
def submitJob (st : SnapshotStore) (contentHash : String) (freshRepoId : String) :
    SubmitResult × SnapshotStore :=
  match findSnapshot st contentHash with
  | some s =>
    ({ repoId := s.repoId, events := ["upload_received", "cache_hit"] }, st)
  | none =>
    let p := createSnapshotIfAbsent st contentHash freshRepoId
    ({ repoId := p.1.repoId, events := ["upload_received"] }, p.2)

theorem findSnapshot_after_create (st : SnapshotStore) (h r : String)
    (hnone : findSnapshot st h = none) :
    findSnapshot { snapshots := st.snapshots ++ [{ contentHash := h, repoId := r }] } h
      = some { contentHash := h, repoId := r } := by
  unfold findSnapshot at hnone ⊢
  rw [List.find?_append, hnone]
  simp

/-- C1: re-submitting content whose snapshot exists yields a `cache_hit`
event, the same repoId and no new Snapshot (the store is unchanged); and
snapshot creation is create-if-absent — a second create for the same hash
returns the snapshot produced by the first, leaving the store unchanged,
rather than erroring. -/
theorem c1_resubmit_cache_hit :
    (∀ (st : SnapshotStore) (h r1 r2 : String),
      "cache_hit" ∈ (submitJob (submitJob st h r1).2 h r2).1.events
        ∧ (submitJob (submitJob st h r1).2 h r2).1.repoId = (submitJob st h r1).1.repoId
        ∧ (submitJob (submitJob st h r1).2 h r2).2 = (submitJob st h r1).2)
    ∧ (∀ (st : SnapshotStore) (h r r' : String),
      createSnapshotIfAbsent (createSnapshotIfAbsent st h r).2 h r'
        = createSnapshotIfAbsent st h r) := by
  constructor
  · intro st h r1 r2
    cases hfind : findSnapshot st h with
    | some s =>
      refine ⟨?_, ?_, ?_⟩ <;>
        simp [submitJob, hfind]
    | none =>
      have hafter := findSnapshot_after_create st h r1 hfind
      refine ⟨?_, ?_, ?_⟩ <;>
        simp [submitJob, createSnapshotIfAbsent, hfind, hafter]
  · intro st h r r'
    cases hfind : findSnapshot st h with
    | some s =>
      simp [createSnapshotIfAbsent, hfind]
    | none =>
      have hafter := findSnapshot_after_create st h r hfind
      simp [createSnapshotIfAbsent, hfind, hafter]

/-! ## Zip-bomb guards at ingest (modelled from the spec) -/

/-- Modelled from the spec: the archive shape examined by the zip-bomb
guards — entry count, nesting depth, uncompressed size, compressed size. -/
structure ArchiveMeta where
  entryCount : Nat
  nestingDepth : Nat
  uncompressedBytes : Nat
  compressedBytes : Nat
deriving DecidableEq, Repr

/-- Runbook default `ZIP_MAX_ENTRIES`. -/
def zipMaxEntries : Nat := 60000

/-- Runbook default `ZIP_MAX_DEPTH`. -/
def zipMaxDepth : Nat := 20

/-- Runbook default `ZIP_MAX_UNCOMPRESSED_BYTES` (1GB). -/
def zipMaxUncompressedBytes : Nat := 1073741824

/-- Runbook default for the maximum compression ratio (200:1). -/
def zipMaxRatio : Nat := 200

/-- Modelled from the spec: the zip-bomb guard trips when the archive
exceeds any limit; a compression ratio above 200:1 means the uncompressed
size exceeds 200 times the compressed size. -/
def zipBombTripped (a : ArchiveMeta) : Bool :=
  a.entryCount > zipMaxEntries
    || a.nestingDepth > zipMaxDepth
    || a.uncompressedBytes > zipMaxUncompressedBytes
    || a.uncompressedBytes > zipMaxRatio * a.compressedBytes

/-- The synchronous outcome of `POST /ingest`. -/
inductive IngestOutcome where
  | validationError (message : String)
  | accepted (jobId : String)
deriving DecidableEq, Repr

/-- Modelled from the spec: `POST /ingest` validates the upload
synchronously — a tripped zip-bomb guard is a validation error and nothing
is enqueued; otherwise an ingest task for the job is enqueued. -/
def ingestUpload (queue : List String) (a : ArchiveMeta) (jobId : String) :
    IngestOutcome × List String :=
  if zipBombTripped a then
    (IngestOutcome.validationError "zip-bomb guard tripped", queue)
  else
    (IngestOutcome.accepted jobId, queue ++ ["ingest:" ++ jobId])

/-- C6: an archive with more than 60,000 entries, or more than 20 levels of
nesting, or more than 1GB uncompressed, or a compression ratio above 200:1
is rejected at ingest with a validation error and never reaches the task
queue (the queue is returned unchanged). -/
theorem c6_zip_bomb_rejected (queue : List String) (a : ArchiveMeta) (jobId : String)
    (h : zipMaxEntries < a.entryCount ∨ zipMaxDepth < a.nestingDepth
       ∨ zipMaxUncompressedBytes < a.uncompressedBytes
       ∨ zipMaxRatio * a.compressedBytes < a.uncompressedBytes) :
    ingestUpload queue a jobId
      = (IngestOutcome.validationError "zip-bomb guard tripped", queue) := by
  have ht : zipBombTripped a = true := by
    simp only [zipBombTripped, Bool.or_eq_true, decide_eq_true_eq, gt_iff_lt]
    tauto
  simp [ingestUpload, ht]

/-- C6 witness: a concrete archive with 60,001 entries is rejected with the
queue untouched. -/
theorem c6_zip_bomb_rejected_witness :
    ingestUpload []
        { entryCount := 60001, nestingDepth := 1,
          uncompressedBytes := 10, compressedBytes := 10 } "j1"
      = (IngestOutcome.validationError "zip-bomb guard tripped", []) :=
  c6_zip_bomb_rejected [] _ "j1" (Or.inl (by decide))

/-! ## Artifact store (modelled from the spec)

`putArtifact(repoId, snapshotHash, settingsHash, kind, payload) -> version`:
always a new version, never an overwrite; versions are monotonically
increasing integers starting at 1 per (repo, snapshot, settings, kind) key;
`getLatestArtifact` returns the highest version.  The store itself is not
among the supplied sources.
-/

/-- Modelled from the spec: the (repo, snapshot, settings, kind) artifact
key. -/
structure ArtifactKey where
  repoId : String
  snapshotHash : String
  settingsHash : String
  kind : String
deriving DecidableEq, Repr

/-- Modelled from the spec: the append-only artifact log; the version of a
write is its position in the per-key write sequence, starting at 1. -/
structure ArtifactStore where
  log : List (ArtifactKey × String)
deriving DecidableEq, Repr

/-- The payloads written under a key, in write order (version n is the n-th
entry). -/
def payloadsFor (st : ArtifactStore) (k : ArtifactKey) : List String :=
  st.log.filterMap (fun e => if e.1 = k then some e.2 else none)

/-- The number of versions written so far under a key. -/
def countFor (st : ArtifactStore) (k : ArtifactKey) : Nat :=
  (payloadsFor st k).length

/-- Modelled from the spec: `putArtifact` — always creates a new version,
never overwrites; the returned version is one more than the number of
existing versions for the key. -/
def putArtifact (st : ArtifactStore) (k : ArtifactKey) (payload : String) :
    Nat × ArtifactStore :=
  (countFor st k + 1, { log := st.log ++ [(k, payload)] })

/-- Modelled from the spec: read of a specific version; a missing artifact
is a typed not-found (`none`), not an empty payload. -/
def getArtifact (st : ArtifactStore) (k : ArtifactKey) (version : Nat) : Option String :=
  (payloadsFor st k)[version - 1]?

/-- Modelled from the spec: `getLatestArtifact` — the (version, payload)
pair with the highest version for the key, or a typed not-found. -/
def getLatestArtifact (st : ArtifactStore) (k : ArtifactKey) : Option (Nat × String) :=
  match (payloadsFor st k).getLast? with
  | none => none
  | some p => some (countFor st k, p)

/-- A sequence of `putArtifact` writes to the same key, collecting the
returned version numbers. -/
def putMany (st : ArtifactStore) (k : ArtifactKey) : List String → List Nat × ArtifactStore
  | [] => ([], st)
  | p :: ps =>
    let q := putArtifact st k p
    let r := putMany q.2 k ps
    (q.1 :: r.1, r.2)

theorem payloadsFor_putArtifact (st : ArtifactStore) (k : ArtifactKey) (p : String) :
    payloadsFor (putArtifact st k p).2 k = payloadsFor st k ++ [p] := by
  simp [payloadsFor, putArtifact, List.filterMap_append]

theorem payloadsFor_putMany (k : ArtifactKey) :
    ∀ (ps : List String) (st : ArtifactStore),
      payloadsFor (putMany st k ps).2 k = payloadsFor st k ++ ps := by
  intro ps
  induction ps with
  | nil => intro st; simp [putMany]
  | cons p ps ih =>
    intro st
    simp only [putMany, ih (putArtifact st k p).2, payloadsFor_putArtifact]
    simp

theorem countFor_putArtifact (st : ArtifactStore) (k : ArtifactKey) (p : String) :
    countFor (putArtifact st k p).2 k = countFor st k + 1 := by
  simp [countFor, payloadsFor_putArtifact]

theorem putMany_versions (k : ArtifactKey) :
    ∀ (ps : List String) (st : ArtifactStore),
      (putMany st k ps).1 = List.range' (countFor st k + 1) ps.length := by
  intro ps
  induction ps with
  | nil => intro st; simp [putMany]
  | cons p ps ih =>
    intro st
    have h1 := ih (putArtifact st k p).2
    rw [countFor_putArtifact] at h1
    simp only [putMany, h1, List.length_cons, List.range'_succ]
    rfl

theorem chain'_lt_range' (n : Nat) : ∀ s : Nat, List.Chain' (· < ·) (List.range' s n) := by
  induction n with
  | zero => intro s; simp
  | succ m ih =>
    intro s
    rw [List.range'_succ]
    rw [List.chain'_cons']
    refine ⟨?_, ih (s + 1)⟩
    intro y hy
    cases m with
    | zero => simp at hy
    | succ m' =>
      rw [List.range'_succ] at hy
      simp only [List.head?_cons, Option.mem_def, Option.some.injEq] at hy
      omega

/-- C2: the versions returned by a sequence of `putArtifact` writes to the
same key are consecutive integers continuing the key's version count —
strictly increasing, and starting at 1 on a key with no prior writes; no
existing version is ever overwritten; and after the sequence,
`getLatestArtifact` returns the highest version written so far together
with the last payload. -/
theorem c2_artifact_versioning (st : ArtifactStore) (k : ArtifactKey) (ps : List String) :
    (putMany st k ps).1 = List.range' (countFor st k + 1) ps.length
    ∧ List.Chain' (· < ·) (putMany st k ps).1
    ∧ (countFor st k = 0 → ps ≠ [] → (putMany st k ps).1.head? = some 1)
    ∧ (∀ v : Nat, 1 ≤ v → v ≤ countFor st k →
        getArtifact (putMany st k ps).2 k v = getArtifact st k v)
    ∧ (∀ hps : ps ≠ [],
        getLatestArtifact (putMany st k ps).2 k
          = some (countFor st k + ps.length, ps.getLast hps)) := by
  refine ⟨putMany_versions k ps st, ?_, ?_, ?_, ?_⟩
  · rw [putMany_versions k ps st]
    exact chain'_lt_range' ps.length (countFor st k + 1)
  · intro h0 hne
    rw [putMany_versions k ps st, h0]
    cases ps with
    | nil => exact absurd rfl hne
    | cons p ps' => rw [List.length_cons, List.range'_succ]; rfl
  · intro v h1 h2
    unfold getArtifact
    rw [payloadsFor_putMany k ps st]
    have hlt : v - 1 < (payloadsFor st k).length := by
      unfold countFor at h2
      omega
    rw [List.getElem?_append_left hlt]
  · intro hps
    unfold getLatestArtifact countFor
    rw [payloadsFor_putMany k ps st, List.getLast?_append,
      List.getLast?_eq_getLast ps hps]
    simp only [Option.or_some]
    rw [List.length_append]

/-- C2 witness: concrete writes "a", "b" under one key on a store that
already holds one version — version 1 is untouched and the latest is
version 3 with payload "b"; on an empty store the first version is 1. -/
theorem c2_artifact_versioning_witness :
    getArtifact
        (putMany { log := [({ repoId := "r", snapshotHash := "s",
                              settingsHash := "h", kind := "graph" }, "old")] }
          { repoId := "r", snapshotHash := "s", settingsHash := "h", kind := "graph" }
          ["a", "b"]).2
        { repoId := "r", snapshotHash := "s", settingsHash := "h", kind := "graph" } 1
      = getArtifact
          { log := [({ repoId := "r", snapshotHash := "s",
                       settingsHash := "h", kind := "graph" }, "old")] }
          { repoId := "r", snapshotHash := "s", settingsHash := "h", kind := "graph" } 1
    ∧ getLatestArtifact
        (putMany { log := [({ repoId := "r", snapshotHash := "s",
                              settingsHash := "h", kind := "graph" }, "old")] }
          { repoId := "r", snapshotHash := "s", settingsHash := "h", kind := "graph" }
          ["a", "b"]).2
        { repoId := "r", snapshotHash := "s", settingsHash := "h", kind := "graph" }
      = some (3, "b")
    ∧ (putMany { log := [] }
        { repoId := "r", snapshotHash := "s", settingsHash := "h", kind := "graph" }
        ["a", "b"]).1.head? = some 1 :=
  ⟨(c2_artifact_versioning _ _ _).2.2.2.1 1 (by decide) (by decide),
   (c2_artifact_versioning _ _ _).2.2.2.2 (by decide),
   (c2_artifact_versioning _ _ _).2.2.1 rfl (by decide)⟩

/-! ## Successful-job status trajectory (modelled from the spec)

The orchestrator and status overlay are not among the supplied sources.
Modelled from the spec: for a valid upload under all limits the job's phase
advances queued→discovering→parsing→mapping→summarizing→done as tasks
complete, and progress percentages are leveled/ratchet values, so the
reported `pct` never decreases across successive polls.
-/

/-- Modelled from the spec: the orchestrator advances a job's phase on task
completion along the success chain; terminal phases never advance. -/
def advancePhase : Phase → Phase
  | .queued => .discovering
  | .acquiring => .discovering
  | .discovering => .parsing
  | .parsing => .mapping
  | .mapping => .summarizing
  | .summarizing => .done
  | .done => .done
  | .failed => .failed

/-- Modelled from the spec: the status overlay ratchets progress — each
reported `pct` is the maximum of the raw progress ticks seen so far. -/
def runningMax (floor : Nat) : List Nat → List Nat
  | [] => []
  | x :: xs => max floor x :: runningMax (max floor x) xs

theorem runningMax_head_ge (l : List Nat) :
    ∀ (floor : Nat), ∀ y ∈ (runningMax floor l).head?, floor ≤ y := by
  induction l with
  | nil => intro floor y hy; simp [runningMax] at hy
  | cons x xs _ =>
    intro floor y hy
    simp only [runningMax, List.head?_cons, Option.mem_def, Option.some.injEq] at hy
    omega

theorem runningMax_chain (l : List Nat) :
    ∀ floor : Nat, List.Chain' (· ≤ ·) (runningMax floor l) := by
  induction l with
  | nil => intro floor; simp [runningMax]
  | cons x xs ih =>
    intro floor
    rw [runningMax, List.chain'_cons']
    exact ⟨runningMax_head_ge xs (max floor x), ih (max floor x)⟩

/-- C8: for a valid upload, iterating the orchestrator's phase advance from
`queued` yields exactly queued→discovering→parsing→mapping→summarizing→done;
ratcheted progress values are monotonically non-decreasing across successive
polls; and on reaching `done` the front end's tick handler displays 100%
complete. -/
theorem c8_success_trajectory :
    ((List.range 6).map (fun n => advancePhase^[n] Phase.queued))
        = [Phase.queued, Phase.discovering, Phase.parsing,
           Phase.mapping, Phase.summarizing, Phase.done]
    ∧ (∀ (pcts : List Nat) (floor : Nat), List.Chain' (· ≤ ·) (runningMax floor pcts))
    ∧ (∀ s : StatusPayload, s.phase = Phase.done →
        (pollTick s).progress = 100
          ∧ (pollTick s).uploadStatus = UploadStatus.complete) := by
  refine ⟨by decide, runningMax_chain, ?_⟩
  intro s h
  constructor <;> simp [pollTick, h]

/-- C8 witness: a concrete `done` status makes the front end display 100%
complete. -/
theorem c8_success_trajectory_witness :
    (pollTick { phase := Phase.done, pct := 97, error := none, repoId := "r2" }).progress = 100
      ∧ (pollTick { phase := Phase.done, pct := 97, error := none, repoId := "r2" }).uploadStatus
        = UploadStatus.complete :=
  c8_success_trajectory.2.2 _ rfl
